import Mathlib

/-!
Verification development for the cosmic-connect-applet repository.

Shallow embedding of:
* `kdeconnect-dbus/src/plugins/sms.rs` — SMS message decoding,
  conversation summarising, address validation;
* `kdeconnect-dbus/src/contacts.rs` — phone-number normalisation and
  vCard parsing;
* `cosmic-applet-connected/src/notifications.rs` (and the identical
  `cosmic-ext-connected` copy) — the file-based notification
  deduplication gate.

Rust strings are modelled as `List Char` (Rust iterates `&str` by
Unicode scalar value, exactly a Lean `Char`); `str::len`, which counts
UTF-8 bytes, is modelled by `rustStrLen`.  Machine integers are `Int` /
`Nat` with explicit two's-complement wrapping where the code casts.
-/

namespace CosmicConnect

/-- Rust `str::len`: the number of UTF-8 bytes of the string. -/
def rustStrLen (s : List Char) : Nat :=
  (s.map Char.utf8Size).sum

/-- Two's-complement interpretation at width `w` of an integer:
models Rust `as iW` casts (`(v + 2^(w-1)) mod 2^w - 2^(w-1)`). -/
def wrapS (w : Nat) (v : Int) : Int :=
  (v + 2 ^ (w - 1)) % 2 ^ w - 2 ^ (w - 1)

/-- The subset of `zbus::zvariant::Value` variants the SMS plugin code
inspects, plus representatives (`u8`, `boolean`) of the variants its
accessors reject.  `struct` is `Value::Structure`, `array` is
`Value::Array`. -/
inductive DBusValue where
  | str (s : List Char)
  | i64 (v : Int)
  | i32 (v : Int)
  | u64 (v : Nat)
  | u32 (v : Nat)
  | i16 (v : Int)
  | u16 (v : Nat)
  | u8 (v : Nat)
  | boolean (b : Bool)
  | array (elems : List DBusValue)
  | struct (fields : List DBusValue)

/-- `MessageType` from sms.rs: direction of an SMS message. -/
inductive MessageType where
  | Inbox
  | Sent
deriving DecidableEq

/-- `impl From<i32> for MessageType`: `1 => Inbox`, everything else
`Sent`. -/
def MessageType.ofI32 (value : Int) : MessageType :=
  if value = 1 then MessageType.Inbox else MessageType.Sent

/-- `SmsMessage` from sms.rs. -/
structure SmsMessage where
  body : List Char
  address : List Char
  date : Int
  message_type : MessageType
  read : Bool
  thread_id : Int
deriving DecidableEq

/-- `ConversationSummary` from sms.rs. -/
structure ConversationSummary where
  thread_id : Int
  address : List Char
  last_message : List Char
  timestamp : Int
  unread : Bool
deriving DecidableEq

/-- `get_string_from_value`: `Value::Str(s) => Some(s)`, else `None`. -/
def get_string_from_value : DBusValue → Option (List Char)
  | .str s => some s
  | _ => none

/-- `get_i64_from_value`: accepts `I64`, `I32`, `U64`, `U32`, `I16`,
`U16`, each cast with `as i64`; every other variant gives `None`. -/
def get_i64_from_value : DBusValue → Option Int
  | .i64 v => some (wrapS 64 v)
  | .i32 v => some (wrapS 32 v)
  | .u64 v => some (wrapS 64 (v : Int))
  | .u32 v => some ((v % 2 ^ 32 : Nat) : Int)
  | .i16 v => some (wrapS 16 v)
  | .u16 v => some ((v % 2 ^ 16 : Nat) : Int)
  | _ => none

/-- `get_i32_from_value`: accepts `I32`, `I64`, `I16`, `U16`, each cast
with `as i32`; every other variant (including `U64`, `U32`, `U8`) gives
`None`. -/
def get_i32_from_value : DBusValue → Option Int
  | .i32 v => some (wrapS 32 v)
  | .i64 v => some (wrapS 32 (wrapS 64 v))
  | .i16 v => some (wrapS 16 v)
  | .u16 v => some ((v % 2 ^ 16 : Nat) : Int)
  | _ => none

/-- Field 2 of a message struct: an array whose first element is either
a struct holding a string, or a bare string. -/
def addressFromField (v : DBusValue) : Option (List Char) :=
  match v with
  | .array arr =>
    arr.head?.bind fun addrStruct =>
      match addrStruct with
      | .struct s => s.head?.bind get_string_from_value
      | _ => get_string_from_value addrStruct
  | _ => none

/-- `parse_sms_message`: positionally decodes a D-Bus struct into an
`SmsMessage`.  Non-struct input gives `None`; each field falls back to
a default (`1` for the type code, `""` for the body, `"Unknown"` for the
address, `0` for date and thread id, `true` for the read flag) when
absent or of an unusable variant. -/
def parse_sms_message (value : DBusValue) : Option SmsMessage :=
  match value with
  | .struct fields =>
    let msg_type_value := (fields.head?.bind get_i32_from_value).getD 1
    let body := ((fields.get? 1).bind get_string_from_value).getD []
    let address := ((fields.get? 2).bind addressFromField).getD ("Unknown".data)
    let date := ((fields.get? 3).bind get_i64_from_value).getD 0
    let read := (((fields.get? 4).bind get_i32_from_value).map (fun v => !(v == 0))).getD true
    let thread_id := ((fields.get? 6).bind get_i64_from_value).getD 0
    some { body := body, address := address, date := date,
           message_type := MessageType.ofI32 msg_type_value,
           read := read, thread_id := thread_id }
  | _ => none

/-- `MAX_CONVERSATIONS` from sms.rs. -/
def MAX_CONVERSATIONS : Nat := 25

/-- The scan loop of `parse_conversations`: walk the (already sorted)
messages, skip threads already seen, emit a summary per new thread, and
stop once `MAX_CONVERSATIONS` summaries have been produced.  `seen` is
the `HashSet` of thread ids, `count` the number of summaries already
pushed. -/
def summaryOf (msg : SmsMessage) : ConversationSummary :=
  { thread_id := msg.thread_id, address := msg.address,
    last_message := msg.body, timestamp := msg.date,
    unread := !msg.read }

def convLoop : List SmsMessage → List Int → Nat → List ConversationSummary
  | [], _, _ => []
  | msg :: rest, seen, count =>
    if msg.thread_id ∈ seen then
      convLoop rest seen count
    else if MAX_CONVERSATIONS ≤ count + 1 then [summaryOf msg]
    else summaryOf msg :: convLoop rest (msg.thread_id :: seen) (count + 1)

/-- `parse_conversations`: decode all records (dropping undecodable
ones), stable-sort by date descending, then keep the first message per
distinct thread up to `MAX_CONVERSATIONS`. -/
def parse_conversations (values : List DBusValue) : List ConversationSummary :=
  convLoop
    ((values.filterMap parse_sms_message).mergeSort
      (fun a b => decide (b.date ≤ a.date)))
    [] 0

/-- `parse_messages`: decode, filter to the requested thread, and
stable-sort by date ascending. -/
def parse_messages (values : List DBusValue) (thread_id : Int) : List SmsMessage :=
  (((values.filterMap parse_sms_message).filter
      (fun msg => msg.thread_id == thread_id)).mergeSort
    (fun a b => decide (a.date ≤ b.date)))

/-- `canonicalize_phone_number`: drop every space, hyphen, parenthesis
and plus sign, keep everything else in order. -/
def canonicalize_phone_number (phone : List Char) : List Char :=
  phone.filter (fun c => !(c == ' ' || c == '-' || c == '(' || c == ')' || c == '+'))

/-- Rust `str::split(sep)`: the list of (possibly empty) chunks between
occurrences of `sep`. -/
def rsplit (sep : Char) : List Char → List (List Char)
  | [] => [[]]
  | c :: rest =>
    if c = sep then [] :: rsplit sep rest
    else
      match rsplit sep rest with
      | h :: t => (c :: h) :: t
      | [] => [[c]]

/-- `is_address_valid`: a canonicalised 3–15 byte all-ASCII-digit phone
number, or a string splitting at `@` into exactly two non-empty parts. -/
def is_address_valid (address : List Char) : Bool :=
  let canonicalized := canonicalize_phone_number address
  if 3 ≤ rustStrLen canonicalized ∧ rustStrLen canonicalized ≤ 15
      ∧ canonicalized.all Char.isDigit then
    true
  else if '@' ∈ address then
    let parts := rsplit '@' address
    if parts.length = 2 ∧ ¬(parts.getD 0 []).isEmpty ∧ ¬(parts.getD 1 []).isEmpty then
      true
    else false
  else false

/-- `normalize_phone_number` from contacts.rs: keep only ASCII digits;
an 11-byte digit string starting with `1` loses that leading `1`. -/
def normalize_phone_number (phone : List Char) : List Char :=
  if rustStrLen (phone.filter Char.isDigit) = 11
      ∧ (phone.filter Char.isDigit).take 1 = ['1'] then
    (phone.filter Char.isDigit).drop 1
  else phone.filter Char.isDigit

/-- Rust `str::trim`: drop whitespace from both ends. -/
def trim (s : List Char) : List Char :=
  ((s.dropWhile Char.isWhitespace).reverse.dropWhile Char.isWhitespace).reverse

/-- `Contact` from contacts.rs. -/
structure Contact where
  name : List Char
  phone_numbers : List (List Char)
deriving DecidableEq

/-- The TEL-line body: the trimmed text after the first `:`, accepted
when non-empty and free of `=`. -/
def telNumber (line : List Char) : Option (List Char) :=
  if ':' ∈ line then
    let number := trim ((line.dropWhile (fun c => !(c == ':'))).tail)
    if ¬number.isEmpty ∧ '=' ∉ number then some number else none
  else none

/-- One line of the `parse_vcard` scan: an `FN:` line replaces the name,
a `TEL` line may append a phone number, anything else is ignored.  The
state is (current name, phone numbers so far). -/
def vstep (st : List Char × List (List Char)) (line : List Char) :
    List Char × List (List Char) :=
  if line.take 3 = ['F', 'N', ':'] then (trim (line.drop 3), st.2)
  else if line.take 3 = ['T', 'E', 'L'] then
    match telNumber line with
    | some number => (st.1, st.2 ++ [number])
    | none => st
  else st

/-- `parse_vcard`, on the lines of the file (reading the file from disk
is I/O and elided): scan all lines, then fail iff the name is empty or
no phone number was collected. -/
def parse_vcard (lines : List (List Char)) : Option Contact :=
  let st := lines.foldl vstep ([], [])
  if st.1.isEmpty ∨ st.2.isEmpty then none
  else some { name := st.1, phone_numbers := st.2 }

/-- The name component of one `parse_vcard` scan step. -/
def nameStep (n : List Char) (line : List Char) : List Char :=
  if line.take 3 = ['F', 'N', ':'] then trim (line.drop 3) else n

/-- The display name `parse_vcard`'s scan ends with: the trimmed value
of the last `FN:` line, or empty. -/
def vcardName (lines : List (List Char)) : List Char :=
  lines.foldl nameStep []

/-- The phone numbers `parse_vcard`'s scan collects, in order. -/
def vcardTels (lines : List (List Char)) : List (List Char) :=
  lines.filterMap
    (fun line =>
      if line.take 3 = ['F', 'N', ':'] then none
      else if line.take 3 = ['T', 'E', 'L'] then telNumber line
      else none)

/-- `DEDUP_WINDOW_MS` from notifications.rs. -/
def DEDUP_WINDOW_MS : Nat := 2000

/-- Rust `str::split_once(sep)`: the parts before and after the first
occurrence of `sep`, or `None` when `sep` does not occur. -/
def split_once (sep : Char) (l : List Char) : Option (List Char × List Char) :=
  if sep ∈ l then
    some (l.takeWhile (fun c => !(c == sep)), (l.dropWhile (fun c => !(c == sep))).tail)
  else none

/-- Rust `str::parse::<u128>()`: an optional leading `+`, then one or
more ASCII digits, rejecting values `≥ 2^128`. -/
def parse_u128 (s : List Char) : Option Nat :=
  let ds := match s with
    | '+' :: rest => rest
    | _ => s
  if ds.isEmpty then none
  else if ds.all Char.isDigit then
    let n := ds.foldl (fun acc c => acc * 10 + (c.toNat - 48)) 0
    if n < 2 ^ 128 then some n else none
  else none

/-- The pure decision of `should_show_notification`, given the dedup
file's contents, the requested key and the current time in ms: parse
the contents as "key newline timestamp"; on success allow iff the key
differs or the saturating elapsed time reaches the window; on any parse
failure allow. -/
def gate_decision (contents key : List Char) (now_ms : Nat) : Bool :=
  match split_once '\n' contents with
  | some (stored_key, stored_time_str) =>
    match parse_u128 stored_time_str with
    | some stored_time =>
      !(stored_key == key) || decide (DEDUP_WINDOW_MS ≤ now_ms - stored_time)
    | none => true
  | none => true

/-- Outcome of opening and locking the dedup file. -/
inductive FileOutcome where
  | openFailed
  | lockFailed
  | opened (contents : List Char)

/-- `should_show_notification`: fail open on open/lock failure; else
decide from the contents, and on allow (and only then) truncate and
write the new "key newline now" record.  The second component is the
record written, `none` when the file is left untouched. -/
def should_show_notification (outcome : FileOutcome) (key : List Char)
    (now_ms : Nat) : Bool × Option (List Char) :=
  match outcome with
  | .openFailed => (true, none)
  | .lockFailed => (true, none)
  | .opened contents =>
    (gate_decision contents key now_ms,
     if gate_decision contents key now_ms then
       some (key ++ '\n' :: Nat.toDigits 10 now_ms)
     else none)

/-! ## Helper lemmas -/

theorem isDigit_utf8Size {c : Char} (h : c.isDigit = true) : c.utf8Size = 1 := by
  simp only [Char.isDigit, Bool.and_eq_true, decide_eq_true_eq] at h
  unfold Char.utf8Size
  rw [if_pos]
  exact UInt32.le_trans h.2 (by decide)

theorem all_digit_rustStrLen {s : List Char} (h : ∀ c ∈ s, c.isDigit = true) :
    rustStrLen s = s.length := by
  induction s with
  | nil => rfl
  | cons c cs ih =>
    have hc := h c (List.mem_cons_self c cs)
    have hcs := fun x hx => h x (List.mem_cons_of_mem c hx)
    simp only [rustStrLen, List.map_cons, List.sum_cons, List.length_cons] at *
    rw [isDigit_utf8Size hc, ih hcs]
    omega

/-! ## Claim C5: canonicalize_phone_number -/

/-- The claim's reading of `canonicalize`, stated from the spec's words:
spaces, hyphens, parentheses removed, and only a LEADING `+` removed,
all other characters preserved. -/
def canonicalize_claimed (raw : List Char) : List Char :=
  let stripped := raw.filter (fun c => !(c == ' ' || c == '-' || c == '(' || c == ')'))
  match stripped with
  | '+' :: rest => rest
  | l => l

/-- Claim C5 counterexample: on `"1+2"` the code removes the interior
`+` (giving `"12"`), while the claim as stated preserves any `+` that is
not leading (expecting `"1+2"`). -/
theorem canonicalize_counterexample :
    canonicalize_phone_number ("1+2".data) = "12".data
    ∧ canonicalize_claimed ("1+2".data) = "1+2".data
    ∧ canonicalize_phone_number ("1+2".data) ≠ canonicalize_claimed ("1+2".data) := by
  exact ⟨by decide, by decide, by decide⟩

/-- Claim C5 (amended): `canonicalize_phone_number` removes every
space, hyphen, parenthesis and plus sign, wherever it occurs, and
preserves all other characters (with multiplicity) in their original
order; canonicalize("+1 (555) 123-4567") = "15551234567". -/
theorem canonicalize_spec :
    (∀ raw : List Char,
      (canonicalize_phone_number raw).Sublist raw
      ∧ (∀ c ∈ canonicalize_phone_number raw,
          c ≠ ' ' ∧ c ≠ '-' ∧ c ≠ '(' ∧ c ≠ ')' ∧ c ≠ '+')
      ∧ (∀ c : Char, c ≠ ' ' → c ≠ '-' → c ≠ '(' → c ≠ ')' → c ≠ '+' →
          (canonicalize_phone_number raw).count c = raw.count c))
    ∧ canonicalize_phone_number ("+1 (555) 123-4567".data) = "15551234567".data := by
  constructor
  · intro raw
    refine ⟨List.filter_sublist raw, ?_, ?_⟩
    · intro c hc
      have := (List.mem_filter.mp hc).2
      simp only [Bool.or_eq_true, Bool.not_eq_true', Bool.or_eq_false_iff,
        beq_eq_false_iff_ne, ne_eq] at this
      exact ⟨this.1.1.1.1, this.1.1.1.2, this.1.1.2, this.1.2, this.2⟩
    · intro c h1 h2 h3 h4 h5
      apply List.count_filter
      simp only [Bool.or_eq_true, Bool.not_eq_true', Bool.or_eq_false_iff,
        beq_eq_false_iff_ne, ne_eq]
      exact ⟨⟨⟨⟨h1, h2⟩, h3⟩, h4⟩, h5⟩
  · decide

/-- Claim C5 witness: the general part of `canonicalize_spec`
instantiated at `"1a"` and the digit `a`. -/
theorem canonicalize_spec_witness :
    (canonicalize_phone_number ("1a".data)).count 'a' = ("1a".data).count 'a' :=
  (canonicalize_spec.1 ("1a".data)).2.2 'a'
    (by decide) (by decide) (by decide) (by decide) (by decide)

/-! ## Claim C7: normalize_phone_number -/

/-- Claim C7: `normalize_phone_number` returns only ASCII digits (the
input's digits in order, possibly minus a leading `1`); when the digit
string has exactly 11 digits and starts with `1`, the result is its
trailing 10 digits; the three example numbers all normalise to
`"5551234567"`. -/
theorem normalize_spec :
    (∀ phone : List Char,
      (∀ c ∈ normalize_phone_number phone, c.isDigit = true)
      ∧ (normalize_phone_number phone = phone.filter Char.isDigit
          ∨ normalize_phone_number phone = (phone.filter Char.isDigit).drop 1)
      ∧ ((phone.filter Char.isDigit).length = 11 →
          (phone.filter Char.isDigit).take 1 = ['1'] →
          normalize_phone_number phone = (phone.filter Char.isDigit).drop 1))
    ∧ normalize_phone_number ("(555) 123-4567".data) = "5551234567".data
    ∧ normalize_phone_number ("+1-555-123-4567".data) = "5551234567".data
    ∧ normalize_phone_number ("15551234567".data) = "5551234567".data := by
  refine ⟨?_, by decide, by decide, by decide⟩
  intro phone
  have hdig : ∀ c ∈ phone.filter Char.isDigit, c.isDigit = true :=
    fun c hc => (List.mem_filter.mp hc).2
  have hlen : rustStrLen (phone.filter Char.isDigit) = (phone.filter Char.isDigit).length :=
    all_digit_rustStrLen hdig
  refine ⟨?_, ?_, ?_⟩
  · intro c hc
    unfold normalize_phone_number at hc
    split at hc
    · exact hdig c (List.mem_of_mem_drop hc)
    · exact hdig c hc
  · unfold normalize_phone_number
    split
    · right; rfl
    · left; rfl
  · intro h11 h1
    unfold normalize_phone_number
    rw [if_pos ⟨by omega, h1⟩]

/-- Claim C7 witness: `normalize_spec` instantiated at a concrete
11-digit number starting with `1`. -/
theorem normalize_spec_witness :
    normalize_phone_number ("19998887777".data)
      = (("19998887777".data).filter Char.isDigit).drop 1 :=
  (normalize_spec.1 ("19998887777".data)).2.2 (by decide) (by decide)

/-! ## Claim C1: the notification gate's allow/deny decision -/

/-- Claim C1: when the dedup file's contents parse as a stored record
(k0, t0), the gate allows iff k0 differs from the requested key or the
elapsed time reaches 2000 ms; in particular an immediate repeat of the
stored key is denied, a repeat after ≥ 2000 ms is allowed, and a
different key is always allowed. -/
theorem gate_allow_iff (contents k0 ts k : List Char) (t0 t : Nat)
    (hsplit : split_once '\n' contents = some (k0, ts))
    (hparse : parse_u128 ts = some t0) :
    (gate_decision contents k t = true ↔
      (k0 ≠ k ∨ (2000 : Int) ≤ (t : Int) - (t0 : Int)))
    ∧ (k0 = k → (t : Int) - (t0 : Int) < 2000 → gate_decision contents k t = false)
    ∧ (k0 = k → (2000 : Int) ≤ (t : Int) - (t0 : Int) → gate_decision contents k t = true)
    ∧ (k0 ≠ k → gate_decision contents k t = true) := by
  have hiff : gate_decision contents k t = true ↔
      (k0 ≠ k ∨ (2000 : Int) ≤ (t : Int) - (t0 : Int)) := by
    simp only [gate_decision, hsplit, hparse]
    simp only [Bool.or_eq_true, Bool.not_eq_true', beq_eq_false_iff_ne, ne_eq,
      decide_eq_true_eq, DEDUP_WINDOW_MS]
    constructor
    · rintro (h | h)
      · exact Or.inl h
      · right; omega
    · rintro (h | h)
      · exact Or.inl h
      · right; omega
  refine ⟨hiff, ?_, ?_, ?_⟩
  · intro hk ht
    cases hgd : gate_decision contents k t with
    | false => rfl
    | true =>
      rcases hiff.mp hgd with h | h
      · exact absurd hk h
      · omega
  · intro _ ht
    exact hiff.mpr (Or.inr ht)
  · intro hk
    exact hiff.mpr (Or.inl hk)

/-- Claim C1 witness: with stored record ("a", 1000): an immediate
repeat of "a" at t = 1000 is denied, "a" at t = 3000 is allowed, and
"b" at t = 1000 is allowed. -/
theorem gate_allow_iff_witness :
    gate_decision ("a\n1000".data) ("a".data) 1000 = false
    ∧ gate_decision ("a\n1000".data) ("a".data) 3000 = true
    ∧ gate_decision ("a\n1000".data) ("b".data) 1000 = true :=
  ⟨(gate_allow_iff ("a\n1000".data) ("a".data) ("1000".data) ("a".data) 1000 1000
      (by decide) (by decide)).2.1 rfl (by decide),
   (gate_allow_iff ("a\n1000".data) ("a".data) ("1000".data) ("a".data) 1000 3000
      (by decide) (by decide)).2.2.1 rfl (by decide),
   (gate_allow_iff ("a\n1000".data) ("a".data) ("1000".data) ("b".data) 1000 1000
      (by decide) (by decide)).2.2.2 (by decide)⟩

/-! ## Claim C4: the gate fails open -/

/-- Claim C4: a failed open or a failed lock yields allow, and contents
that are empty or do not parse as a key line followed by a decimal
timestamp line also yield allow, identically to no prior record. -/
theorem gate_fail_open : ∀ (key : List Char) (now : Nat),
    (should_show_notification FileOutcome.openFailed key now).1 = true
    ∧ (should_show_notification FileOutcome.lockFailed key now).1 = true
    ∧ gate_decision [] key now = true
    ∧ (∀ contents, split_once '\n' contents = none →
        gate_decision contents key now = true)
    ∧ (∀ contents k0 ts, split_once '\n' contents = some (k0, ts) →
        parse_u128 ts = none → gate_decision contents key now = true) := by
  intro key now
  refine ⟨rfl, rfl, rfl, ?_, ?_⟩
  · intro contents h
    simp only [gate_decision, h]
  · intro contents k0 ts h hp
    simp only [gate_decision, h, hp]

/-- Claim C4 witness: open failure, the empty file, a file with no
newline, and a file whose second line is not a decimal number all
allow. -/
theorem gate_fail_open_witness :
    (should_show_notification FileOutcome.openFailed ("k".data) 5).1 = true
    ∧ gate_decision ("garbage".data) ("k".data) 5 = true
    ∧ gate_decision ("a\nxyz".data) ("k".data) 5 = true :=
  ⟨(gate_fail_open ("k".data) 5).1,
   (gate_fail_open ("k".data) 5).2.2.2.1 ("garbage".data) (by decide),
   (gate_fail_open ("k".data) 5).2.2.2.2 ("a\nxyz".data) ("a".data) ("xyz".data)
     (by decide) (by decide)⟩

/-! ## Claim C10: deny leaves the dedup file unchanged -/

/-- Claim C10: the gate writes the key/timestamp record only on an
allow decision; on deny the file is left untouched, so the suppression
window is always measured from the last allowed notification. -/
theorem gate_deny_no_write : ∀ (contents key : List Char) (now : Nat),
    ((should_show_notification (FileOutcome.opened contents) key now).1 = false →
      (should_show_notification (FileOutcome.opened contents) key now).2 = none)
    ∧ (∀ written,
        (should_show_notification (FileOutcome.opened contents) key now).2 = some written →
        (should_show_notification (FileOutcome.opened contents) key now).1 = true
        ∧ written = key ++ '\n' :: Nat.toDigits 10 now) := by
  intro contents key now
  by_cases d : gate_decision contents key now = true
  · refine ⟨?_, ?_⟩
    · intro h
      simp [should_show_notification, d] at h
    · intro written h
      simp only [should_show_notification, d, if_true] at h ⊢
      exact ⟨trivial, by simpa using h.symm⟩
  · rw [Bool.not_eq_true] at d
    refine ⟨?_, ?_⟩
    · intro _
      simp [should_show_notification, d]
    · intro written h
      simp [should_show_notification, d] at h

/-- Claim C10 witness: a denied duplicate ("a" again at t = 1000)
leaves the file contents unchanged. -/
theorem gate_deny_no_write_witness :
    (should_show_notification (FileOutcome.opened ("a\n1000".data)) ("a".data) 1000).2
      = none :=
  (gate_deny_no_write ("a\n1000".data) ("a".data) 1000).1 (by decide)

/-! ## Claim C2: parse_sms_message field defaults -/

/-- Claim C2 counterexample: decoding the empty struct (every field
absent) yields read = `true` (the claim says the read flag defaults to
false), address = `"Unknown"` (the claim says empty), and direction
`Inbox`, i.e. type code 1 (the claim says the direction code defaults
to zero). -/
theorem parse_defaults_counterexample :
    (parse_sms_message (DBusValue.struct [])).map SmsMessage.read = some true
    ∧ (parse_sms_message (DBusValue.struct [])).map SmsMessage.address
        = some ("Unknown".data)
    ∧ (parse_sms_message (DBusValue.struct [])).map SmsMessage.message_type
        = some MessageType.Inbox :=
  ⟨rfl, rfl, rfl⟩

/-- Claim C2 (amended): decoding a struct never fails, whatever the
fields; an absent or unreadable field takes the default type code 1
(Inbox), empty body, address "Unknown", date 0, read `true`, thread id
0; `get_i64_from_value` accepts exactly the I64/I32/U64/U32/I16/U16
variants (wrapping with `as i64`) and `get_i32_from_value` exactly
I32/I64/I16/U16 — in particular U8 values and non-integer variants are
rejected by both, and U64/U32 by the i32 accessor. -/
theorem parse_sms_defaults :
    (∀ fields : List DBusValue,
      (parse_sms_message (DBusValue.struct fields)).isSome = true)
    ∧ parse_sms_message (DBusValue.struct [])
        = some { body := [], address := "Unknown".data, date := 0,
                 message_type := MessageType.Inbox, read := true, thread_id := 0 }
    ∧ (∀ v : Int, get_i64_from_value (DBusValue.i64 v) = some (wrapS 64 v))
    ∧ (∀ v : Int, get_i64_from_value (DBusValue.i32 v) = some (wrapS 32 v))
    ∧ (∀ v : Nat, get_i64_from_value (DBusValue.u64 v) = some (wrapS 64 (v : Int)))
    ∧ (∀ v : Nat, get_i64_from_value (DBusValue.u32 v) = some ((v % 2 ^ 32 : Nat) : Int))
    ∧ (∀ v : Int, get_i64_from_value (DBusValue.i16 v) = some (wrapS 16 v))
    ∧ (∀ v : Nat, get_i64_from_value (DBusValue.u16 v) = some ((v % 2 ^ 16 : Nat) : Int))
    ∧ (∀ v : Nat, get_i64_from_value (DBusValue.u8 v) = none)
    ∧ (∀ b : Bool, get_i64_from_value (DBusValue.boolean b) = none)
    ∧ (∀ s : List Char, get_i64_from_value (DBusValue.str s) = none)
    ∧ (∀ v : Nat, get_i32_from_value (DBusValue.u64 v) = none)
    ∧ (∀ v : Nat, get_i32_from_value (DBusValue.u32 v) = none)
    ∧ (∀ v : Nat, get_i32_from_value (DBusValue.u8 v) = none) :=
  ⟨fun _ => rfl, by decide, fun _ => rfl, fun _ => rfl, fun _ => rfl, fun _ => rfl,
   fun _ => rfl, fun _ => rfl, fun _ => rfl, fun _ => rfl, fun _ => rfl,
   fun _ => rfl, fun _ => rfl, fun _ => rfl⟩

/-! ## Claim C9: parse_vcard keeps a record only with name AND phone -/

/-- The `parse_vcard` scan splits into its name and phone components. -/
theorem foldl_vstep : ∀ (lines : List (List Char)) (n : List Char) (ps : List (List Char)),
    lines.foldl vstep (n, ps) = (lines.foldl nameStep n, ps ++ vcardTels lines) := by
  intro lines
  induction lines with
  | nil => intro n ps; simp [vcardTels]
  | cons line rest ih =>
    intro n ps
    simp only [List.foldl_cons, vcardTels, List.filterMap_cons]
    by_cases hfn : line.take 3 = ['F', 'N', ':']
    · simp [vstep, nameStep, hfn, ih, vcardTels]
    · by_cases htel : line.take 3 = ['T', 'E', 'L']
      · cases htn : telNumber line with
        | some number =>
          simp [vstep, nameStep, hfn, htel, htn, ih, vcardTels]
        | none =>
          simp [vstep, nameStep, hfn, htel, htn, ih, vcardTels]
      · simp [vstep, nameStep, hfn, htel, ih, vcardTels]

/-- `parse_vcard` in terms of the name and phone components. -/
theorem parse_vcard_eq (lines : List (List Char)) :
    parse_vcard lines =
      if (vcardName lines).isEmpty ∨ (vcardTels lines).isEmpty then none
      else some { name := vcardName lines, phone_numbers := vcardTels lines } := by
  unfold parse_vcard vcardName
  rw [foldl_vstep]
  simp

/-- Claim C9 counterexample: a record with a usable display name
(`FN:Alice`) but no phone number is discarded by the code, while the
claim says a record yielding at least one of a name or a number
produces a Contact. -/
theorem parse_vcard_counterexample :
    parse_vcard [("FN:Alice".data)] = none
    ∧ vcardName [("FN:Alice".data)] = "Alice".data
    ∧ ("Alice".data : List Char) ≠ [] :=
  ⟨by decide, by decide, by decide⟩

/-- Claim C9 (amended): `parse_vcard` discards a record exactly when it
lacks a usable display name OR lacks any phone number — both are
required; a record with a non-empty FN name and at least one TEL line
whose value is non-empty and contains no `=` produces a Contact
carrying that name and those numbers. -/
theorem parse_vcard_spec : ∀ lines : List (List Char),
    (parse_vcard lines = none ↔ vcardName lines = [] ∨ vcardTels lines = [])
    ∧ (vcardName lines ≠ [] → vcardTels lines ≠ [] →
        parse_vcard lines
          = some { name := vcardName lines, phone_numbers := vcardTels lines }) := by
  intro lines
  rw [parse_vcard_eq]
  constructor
  · split_ifs with h
    · simpa [List.isEmpty_iff] using h
    · simp [List.isEmpty_iff] at h
      simp [h]
  · intro hn hp
    rw [if_neg]
    simp [List.isEmpty_iff, hn, hp]

/-- Claim C9 witness: a record with both an FN name and a TEL number
produces the corresponding Contact. -/
theorem parse_vcard_spec_witness :
    parse_vcard [("FN:Al".data), ("TEL:5".data)]
      = some { name := vcardName [("FN:Al".data), ("TEL:5".data)],
               phone_numbers := vcardTels [("FN:Al".data), ("TEL:5".data)] } :=
  (parse_vcard_spec [("FN:Al".data), ("TEL:5".data)]).2 (by decide) (by decide)

/-! ## Claim C6: is_address_valid -/

theorem rsplit_ne_nil (sep : Char) (l : List Char) : rsplit sep l ≠ [] := by
  induction l with
  | nil => simp [rsplit]
  | cons c rest ih =>
    simp only [rsplit]
    split
    · simp
    · cases h : rsplit sep rest with
      | nil => simp
      | cons a t => simp

theorem rsplit_no_sep {sep : Char} : ∀ {l : List Char}, sep ∉ l → rsplit sep l = [l] := by
  intro l
  induction l with
  | nil => intro _; rfl
  | cons c rest ih =>
    intro h
    have hc : ¬c = sep := fun hc => h (hc ▸ List.mem_cons_self c rest)
    have hr : sep ∉ rest := fun hr => h (List.mem_cons_of_mem c hr)
    simp only [rsplit, if_neg hc, ih hr]

theorem rsplit_append {sep : Char} : ∀ {a : List Char} (b : List Char), sep ∉ a →
    rsplit sep (a ++ sep :: b) = a :: rsplit sep b := by
  intro a
  induction a with
  | nil => intro b _; simp [rsplit]
  | cons c a' ih =>
    intro b h
    have hc : ¬c = sep := fun hc => h (hc ▸ List.mem_cons_self c a')
    have ha : sep ∉ a' := fun ha => h (List.mem_cons_of_mem c ha)
    simp only [List.cons_append, rsplit, if_neg hc, List.append_eq, ih b ha]

theorem rsplit_cases (sep : Char) : ∀ l : List Char,
    sep ∉ l ∨ ∃ a b, l = a ++ sep :: b ∧ sep ∉ a := by
  intro l
  induction l with
  | nil => left; simp
  | cons c rest ih =>
    by_cases hc : c = sep
    · right
      exact ⟨[], rest, by simp [hc], by simp⟩
    · rcases ih with h | ⟨a, b, rfl, ha⟩
      · left
        simp only [List.mem_cons, not_or]
        exact ⟨fun hsc => hc hsc.symm, h⟩
      · right
        refine ⟨c :: a, b, rfl, ?_⟩
        simp only [List.mem_cons, not_or]
        exact ⟨fun hsc => hc hsc.symm, ha⟩

/-- The phone branch of `is_address_valid`, byte length versus the
spec's character count. -/
theorem phone_cond_iff (cz : List Char) :
    (3 ≤ rustStrLen cz ∧ rustStrLen cz ≤ 15 ∧ cz.all Char.isDigit = true)
    ↔ (3 ≤ cz.length ∧ cz.length ≤ 15 ∧ ∀ c ∈ cz, c.isDigit = true) := by
  constructor
  · rintro ⟨h1, h2, h3⟩
    have h4 := all_digit_rustStrLen (List.all_eq_true.mp h3)
    exact ⟨by omega, by omega, List.all_eq_true.mp h3⟩
  · rintro ⟨h1, h2, h3⟩
    have h4 := all_digit_rustStrLen h3
    exact ⟨by omega, by omega, List.all_eq_true.mpr h3⟩

/-- The email branch of `is_address_valid`: exactly one `@` with
non-empty sides. -/
theorem email_cond_iff (raw : List Char) :
    ('@' ∈ raw ∧ (rsplit '@' raw).length = 2
      ∧ ¬((rsplit '@' raw).getD 0 []).isEmpty ∧ ¬((rsplit '@' raw).getD 1 []).isEmpty)
    ↔ ∃ a b, raw = a ++ '@' :: b ∧ a ≠ [] ∧ b ≠ [] ∧ '@' ∉ a ∧ '@' ∉ b := by
  constructor
  · rintro ⟨hmem, hlen, h0, h1⟩
    rcases rsplit_cases '@' raw with hno | ⟨a, b, rfl, hna⟩
    · exact absurd hmem hno
    · rw [rsplit_append b hna] at hlen h0 h1
      rcases rsplit_cases '@' b with hnob | ⟨a', b', rfl, hna'⟩
      · rw [rsplit_no_sep hnob] at hlen h0 h1
        refine ⟨a, b, rfl, ?_, ?_, hna, hnob⟩
        · simpa [List.isEmpty_iff] using h0
        · simpa [List.isEmpty_iff] using h1
      · rw [rsplit_append b' hna'] at hlen
        cases h : rsplit '@' b' with
        | nil => exact absurd h (rsplit_ne_nil '@' b')
        | cons x t => rw [h] at hlen; simp at hlen
  · rintro ⟨a, b, rfl, ha, hb, hna, hnb⟩
    rw [rsplit_append b hna, rsplit_no_sep hnb]
    refine ⟨by simp, rfl, ?_, ?_⟩
    · simpa [List.isEmpty_iff] using ha
    · simpa [List.isEmpty_iff] using hb

/-- Claim C6: `is_address_valid` is true iff the canonicalised input is
3–15 ASCII digits, or the input contains exactly one `@` with non-empty
parts on both sides; "123" is valid, "12" is not, "a@b" is valid, "a@"
is not. -/
theorem is_address_valid_spec :
    (∀ raw : List Char,
      is_address_valid raw = true ↔
        (3 ≤ (canonicalize_phone_number raw).length
          ∧ (canonicalize_phone_number raw).length ≤ 15
          ∧ ∀ c ∈ canonicalize_phone_number raw, c.isDigit = true)
        ∨ (∃ a b, raw = a ++ '@' :: b ∧ a ≠ [] ∧ b ≠ [] ∧ '@' ∉ a ∧ '@' ∉ b))
    ∧ is_address_valid ("123".data) = true
    ∧ is_address_valid ("12".data) = false
    ∧ is_address_valid ("a@b".data) = true
    ∧ is_address_valid ("a@".data) = false := by
  refine ⟨?_, by decide, by decide, by decide, by decide⟩
  intro raw
  have hphone := phone_cond_iff (canonicalize_phone_number raw)
  have hemail := email_cond_iff raw
  simp only [is_address_valid]
  split_ifs with h1 h2 h3
  · simp only [true_iff]
    exact Or.inl (hphone.mp h1)
  · simp only [true_iff]
    exact Or.inr (hemail.mp ⟨h2, h3.1, h3.2.1, h3.2.2⟩)
  · simp only [false_iff]
    rintro (hp | he)
    · exact h1 (hphone.mpr hp)
    · obtain ⟨hm, hl, hg0, hg1⟩ := hemail.mpr he
      exact h3 ⟨hl, hg0, hg1⟩
  · simp only [false_iff]
    rintro (hp | he)
    · exact h1 (hphone.mpr hp)
    · exact h2 (hemail.mpr he).1

/-- Claim C6 witness: `is_address_valid_spec` applied at `"x@yz"`,
discharging the email-side condition concretely. -/
theorem is_address_valid_spec_witness : is_address_valid ("x@yz".data) = true :=
  (is_address_valid_spec.1 ("x@yz".data)).mpr
    (Or.inr ⟨"x".data, "yz".data, by decide, by decide, by decide, by decide, by decide⟩)

/-! ## Claim C8: parse_messages -/

/-- Claim C8: `parse_messages` returns exactly (as a multiset) the
decodable records whose thread id equals the requested one, ordered by
date non-decreasing, and nothing from any other thread. -/
theorem parse_messages_spec : ∀ (values : List DBusValue) (tid : Int),
    (parse_messages values tid).Perm
      ((values.filterMap parse_sms_message).filter (fun m => m.thread_id == tid))
    ∧ (parse_messages values tid).Pairwise (fun a b => a.date ≤ b.date)
    ∧ (∀ m ∈ parse_messages values tid, m.thread_id = tid) := by
  intro values tid
  simp only [parse_messages]
  refine ⟨List.mergeSort_perm _ _, ?_, ?_⟩
  · have hs := @List.sorted_mergeSort SmsMessage (fun a b => decide (a.date ≤ b.date))
      (fun a b c hab hbc => by simp only [decide_eq_true_eq] at *; omega)
      (fun a b => by
        by_cases h : a.date ≤ b.date <;> simp [h]; omega)
      ((values.filterMap parse_sms_message).filter (fun m => m.thread_id == tid))
    exact hs.imp (fun h => by simpa using h)
  · intro m hm
    have h1 := List.mem_mergeSort.mp hm
    have h2 := (List.mem_filter.mp h1).2
    simpa using h2

/-- Claim C8 witness: `parse_messages_spec` instantiated at the empty
record list and thread 0. -/
theorem parse_messages_spec_witness :
    (parse_messages [] 0).Perm
      (((List.nil).filterMap parse_sms_message).filter (fun m => m.thread_id == 0)) :=
  (parse_messages_spec [] 0).1

/-! ## Claim C3: parse_conversations -/

theorem convLoop_not_seen : ∀ (msgs : List SmsMessage) (seen : List Int) (count : Nat),
    ∀ s ∈ convLoop msgs seen count, s.thread_id ∉ seen := by
  intro msgs
  induction msgs with
  | nil => intro seen count s hs; simp [convLoop] at hs
  | cons msg rest ih =>
    intro seen count s hs
    simp only [convLoop] at hs
    by_cases h1 : msg.thread_id ∈ seen
    · rw [if_pos h1] at hs
      exact ih seen count s hs
    · rw [if_neg h1] at hs
      by_cases h2 : MAX_CONVERSATIONS ≤ count + 1
      · rw [if_pos h2] at hs
        rw [List.mem_singleton.mp hs]
        simpa [summaryOf] using h1
      · rw [if_neg h2] at hs
        rcases List.mem_cons.mp hs with rfl | htail
        · simpa [summaryOf] using h1
        · have := ih (msg.thread_id :: seen) (count + 1) s htail
          exact fun hseen => this (List.mem_cons_of_mem _ hseen)

theorem convLoop_length : ∀ (msgs : List SmsMessage) (seen : List Int) (count : Nat),
    count < MAX_CONVERSATIONS →
    (convLoop msgs seen count).length + count ≤ MAX_CONVERSATIONS := by
  intro msgs
  induction msgs with
  | nil => intro seen count h; simp [convLoop]; omega
  | cons msg rest ih =>
    intro seen count h
    simp only [convLoop]
    by_cases h1 : msg.thread_id ∈ seen
    · rw [if_pos h1]
      exact ih seen count h
    · rw [if_neg h1]
      by_cases h2 : MAX_CONVERSATIONS ≤ count + 1
      · rw [if_pos h2]
        simp only [List.length_singleton]
        omega
      · rw [if_neg h2]
        have := ih (msg.thread_id :: seen) (count + 1) (by omega)
        simp only [List.length_cons]
        omega

theorem convLoop_max : ∀ (msgs : List SmsMessage),
    msgs.Pairwise (fun a b => b.date ≤ a.date) →
    ∀ (seen : List Int) (count : Nat), ∀ s ∈ convLoop msgs seen count,
      (∃ m ∈ msgs, m.thread_id = s.thread_id ∧ m.date = s.timestamp)
      ∧ (∀ m ∈ msgs, m.thread_id = s.thread_id → m.date ≤ s.timestamp) := by
  intro msgs
  induction msgs with
  | nil => intro _ seen count s hs; simp [convLoop] at hs
  | cons msg rest ih =>
    intro hp seen count s hs
    obtain ⟨hmsg, hrest⟩ := List.pairwise_cons.mp hp
    simp only [convLoop] at hs
    by_cases h1 : msg.thread_id ∈ seen
    · rw [if_pos h1] at hs
      have hnot := convLoop_not_seen rest seen count s hs
      obtain ⟨hex, hall⟩ := ih hrest seen count s hs
      refine ⟨?_, ?_⟩
      · obtain ⟨m, hm, hmt, hmd⟩ := hex
        exact ⟨m, List.mem_cons_of_mem _ hm, hmt, hmd⟩
      · intro m hm hmt
        rcases List.mem_cons.mp hm with rfl | hm'
        · exact absurd (hmt ▸ h1) hnot
        · exact hall m hm' hmt
    · rw [if_neg h1] at hs
      have hhead : ∀ s' : ConversationSummary, s' = summaryOf msg →
          (∃ m ∈ msg :: rest, m.thread_id = s'.thread_id ∧ m.date = s'.timestamp)
          ∧ (∀ m ∈ msg :: rest, m.thread_id = s'.thread_id → m.date ≤ s'.timestamp) := by
        rintro s' rfl
        refine ⟨⟨msg, List.mem_cons_self _ _, rfl, rfl⟩, ?_⟩
        intro m hm _
        rcases List.mem_cons.mp hm with rfl | hm'
        · exact le_refl _
        · exact hmsg m hm'
      by_cases h2 : MAX_CONVERSATIONS ≤ count + 1
      · rw [if_pos h2] at hs
        exact hhead s (List.mem_singleton.mp hs)
      · rw [if_neg h2] at hs
        rcases List.mem_cons.mp hs with rfl | htail
        · exact hhead _ rfl
        · have hnot := convLoop_not_seen rest (msg.thread_id :: seen) (count + 1) s htail
          obtain ⟨hex, hall⟩ := ih hrest (msg.thread_id :: seen) (count + 1) s htail
          have hne : msg.thread_id ≠ s.thread_id :=
            fun he => hnot (he ▸ List.mem_cons_self _ _)
          refine ⟨?_, ?_⟩
          · obtain ⟨m, hm, hmt, hmd⟩ := hex
            exact ⟨m, List.mem_cons_of_mem _ hm, hmt, hmd⟩
          · intro m hm hmt
            rcases List.mem_cons.mp hm with rfl | hm'
            · exact absurd hmt hne
            · exact hall m hm' hmt

theorem convLoop_pairwise_thread : ∀ (msgs : List SmsMessage) (seen : List Int) (count : Nat),
    (convLoop msgs seen count).Pairwise (fun a b => a.thread_id ≠ b.thread_id) := by
  intro msgs
  induction msgs with
  | nil => intro seen count; simp [convLoop]
  | cons msg rest ih =>
    intro seen count
    simp only [convLoop]
    by_cases h1 : msg.thread_id ∈ seen
    · rw [if_pos h1]
      exact ih seen count
    · rw [if_neg h1]
      by_cases h2 : MAX_CONVERSATIONS ≤ count + 1
      · rw [if_pos h2]
        simp
      · rw [if_neg h2]
        refine List.Pairwise.cons ?_ (ih (msg.thread_id :: seen) (count + 1))
        intro x hx he
        have hxm : x.thread_id = msg.thread_id := by
          simpa [summaryOf] using he.symm
        exact convLoop_not_seen rest (msg.thread_id :: seen) (count + 1) x hx
          (by rw [hxm]; exact List.mem_cons_self msg.thread_id seen)

theorem convLoop_sorted : ∀ (msgs : List SmsMessage),
    msgs.Pairwise (fun a b => b.date ≤ a.date) →
    ∀ (seen : List Int) (count : Nat),
    (convLoop msgs seen count).Pairwise (fun a b => b.timestamp ≤ a.timestamp) := by
  intro msgs
  induction msgs with
  | nil => intro _ seen count; simp [convLoop]
  | cons msg rest ih =>
    intro hp seen count
    obtain ⟨hmsg, hrest⟩ := List.pairwise_cons.mp hp
    simp only [convLoop]
    by_cases h1 : msg.thread_id ∈ seen
    · rw [if_pos h1]
      exact ih hrest seen count
    · rw [if_neg h1]
      by_cases h2 : MAX_CONVERSATIONS ≤ count + 1
      · rw [if_pos h2]
        simp
      · rw [if_neg h2]
        refine List.Pairwise.cons ?_ (ih hrest (msg.thread_id :: seen) (count + 1))
        intro x hx
        obtain ⟨hex, _⟩ := convLoop_max rest hrest (msg.thread_id :: seen) (count + 1) x hx
        obtain ⟨m, hm, _, hmd⟩ := hex
        have : m.date ≤ msg.date := hmsg m hm
        show x.timestamp ≤ (summaryOf msg).timestamp
        simp only [summaryOf]
        omega

/-- Claim C3: `parse_conversations` yields at most 25 summaries, no two
sharing a thread id; each summary's timestamp is the maximum date among
that thread's decodable records, and the output is ordered
most-recent-first. -/
theorem parse_conversations_spec : ∀ values : List DBusValue,
    (parse_conversations values).length ≤ MAX_CONVERSATIONS
    ∧ (parse_conversations values).Pairwise (fun a b => a.thread_id ≠ b.thread_id)
    ∧ (∀ s ∈ parse_conversations values,
        (∃ m ∈ values.filterMap parse_sms_message,
          m.thread_id = s.thread_id ∧ m.date = s.timestamp)
        ∧ (∀ m ∈ values.filterMap parse_sms_message,
            m.thread_id = s.thread_id → m.date ≤ s.timestamp))
    ∧ (parse_conversations values).Pairwise (fun a b => b.timestamp ≤ a.timestamp) := by
  intro values
  have hperm : ((values.filterMap parse_sms_message).mergeSort
      (fun a b => decide (b.date ≤ a.date))).Perm (values.filterMap parse_sms_message) :=
    List.mergeSort_perm _ _
  have hpair : ((values.filterMap parse_sms_message).mergeSort
      (fun a b => decide (b.date ≤ a.date))).Pairwise (fun a b => b.date ≤ a.date) := by
    have hs := @List.sorted_mergeSort SmsMessage (fun a b => decide (b.date ≤ a.date))
      (fun a b c hab hbc => by simp only [decide_eq_true_eq] at *; omega)
      (fun a b => by
        by_cases h : b.date ≤ a.date <;> simp [h]; omega)
      (values.filterMap parse_sms_message)
    exact hs.imp (fun h => by simpa using h)
  simp only [parse_conversations]
  refine ⟨?_, convLoop_pairwise_thread _ [] 0, ?_, convLoop_sorted _ hpair [] 0⟩
  · have := convLoop_length
      ((values.filterMap parse_sms_message).mergeSort (fun a b => decide (b.date ≤ a.date)))
      [] 0 (by simp [MAX_CONVERSATIONS])
    omega
  · intro s hs
    obtain ⟨hex, hall⟩ := convLoop_max _ hpair [] 0 s hs
    refine ⟨?_, ?_⟩
    · obtain ⟨m, hm, hmt, hmd⟩ := hex
      exact ⟨m, hperm.subset hm, hmt, hmd⟩
    · intro m hm hmt
      exact hall m (hperm.mem_iff.mpr hm) hmt

/-- Claim C3 witness: `parse_conversations_spec` instantiated at the
empty record list. -/
theorem parse_conversations_spec_witness :
    (parse_conversations []).length ≤ MAX_CONVERSATIONS :=
  (parse_conversations_spec []).1

end CosmicConnect
